import Mathlib

/-!
Verification development for the Fracta timeseries core
(bar store, calendar cache, whitespace projector).

Shallow embedding conventions:
* timestamps and timedeltas are integers counting seconds since the epoch
  (pandas Timestamps / Timedeltas at second resolution);
* Python floats are modelled by PyFloat (finite rationals plus plus/minus
  infinity and nan), so that the max/min/add combinators in the source can be
  translated literally; a missing value (Python None, or a NaN cell read back
  from a dataframe column that is absent) is Option.none;
* the external pandas-market-calendars library and the anchored-frequency
  arithmetic of pandas date_range for month, quarter and year periods are
  external collaborators: they enter as function fields of CalEnv, and the
  theorems that need facts about them take those facts as explicit contract
  hypotheses (CalEnvContracts);
* Python exceptions are modelled with Except String.
-/

namespace Fracta

/-- Model of a Python float as used by the bar store: a finite rational,
one of the two infinities produced by the literal inf and -inf guards in
update_curr_bar, or nan. -/
inductive PyFloat where
  | nan : PyFloat
  | ninf : PyFloat
  | fin (q : ℚ) : PyFloat
  | pinf : PyFloat
deriving DecidableEq, Repr

/-- Python comparison a < b (False whenever nan is involved). -/
def PyFloat.ltb : PyFloat → PyFloat → Bool
  | .nan, _ => false
  | _, .nan => false
  | .ninf, .ninf => false
  | .ninf, _ => true
  | _, .ninf => false
  | .pinf, _ => false
  | .fin _, .pinf => true
  | .fin a, .fin b => decide (a < b)

/-- Python max(a, b): returns b only when b is strictly greater than a. -/
def PyFloat.pymax (a b : PyFloat) : PyFloat := if PyFloat.ltb a b then b else a

/-- Python min(a, b): returns b only when b is strictly less than a. -/
def PyFloat.pymin (a b : PyFloat) : PyFloat := if PyFloat.ltb b a then b else a

/-- Python float addition, restricted to the values the model can hold. -/
def PyFloat.add : PyFloat → PyFloat → PyFloat
  | .nan, _ => .nan
  | _, .nan => .nan
  | .pinf, .ninf => .nan
  | .ninf, .pinf => .nan
  | .pinf, _ => .pinf
  | _, .pinf => .pinf
  | .ninf, _ => .ninf
  | _, .ninf => .ninf
  | .fin a, .fin b => .fin (a + b)

/-- One second, minute, hour, day, week expressed in seconds. -/
def day : Int := 86400

def week : Int := 604800

def weeks16 : Int := 16 * 604800

/-- Modelled from the spec: the period unit of a timeframe (types.py, which
defines TF, is not part of src/). The spec lists tick, second, minute, hour,
day, week, month, quarter, year; the source additionally uses the degenerate
period E for a store that failed to load. -/
inductive Period where
  | E | s | m | h | D | W | M | Q | Y
deriving DecidableEq, Repr

/-- Modelled from the spec: a timeframe is an immutable pair of a positive
integer multiplier and a period unit (types.py is not part of src/). -/
structure TF where
  mult : Nat
  period : Period
deriving DecidableEq, Repr

/-- Modelled from the spec: the fixed duration of a timeframe in seconds.
The spec says the conversion is exact only for sub-day periods; the source
nevertheless compares as_timedelta against one day for every period, so the
calendar-arithmetic periods get their nominal durations (30/91/365 days),
which the source only ever uses for that comparison. -/
def TF.as_timedelta (t : TF) : Int :=
  match t.period with
  | .E => 0
  | .s => (t.mult : Int)
  | .m => 60 * (t.mult : Int)
  | .h => 3600 * (t.mult : Int)
  | .D => 86400 * (t.mult : Int)
  | .W => 604800 * (t.mult : Int)
  | .M => 2592000 * (t.mult : Int)
  | .Q => 7862400 * (t.mult : Int)
  | .Y => 31536000 * (t.mult : Int)

/-- Modelled from the spec: recover a timeframe from a fixed duration
(types.py is not part of src/): the largest sub-week unit that divides the
duration evenly, with the degenerate E timeframe for non-positive input. -/
def TF.from_timedelta (td : Int) : TF :=
  if td ≤ 0 then ⟨1, .E⟩
  else if td % 604800 = 0 then ⟨(td / 604800).toNat, .W⟩
  else if td % 86400 = 0 then ⟨(td / 86400).toNat, .D⟩
  else if td % 3600 = 0 then ⟨(td / 3600).toNat, .h⟩
  else if td % 60 = 0 then ⟨(td / 60).toNat, .m⟩
  else ⟨td.toNat, .s⟩

/-- Modelled from the spec: the three basic series-data shapes
(series_dtypes.py is not part of src/): whitespace (time only), single
value, and OHLC, each with an optional volume. -/
inductive SeriesType where
  | WhitespaceData
  | SingleValueData
  | OHLC_Data
deriving DecidableEq, Repr

/-- Modelled from the spec: a basic data record of one of the three shapes
(series_dtypes.py is not part of src/). Optional numeric fields are None
when absent. -/
inductive AnyBasicData where
  | WhitespaceData (time : Int)
  | SingleValueData (time : Int) (value : Option PyFloat) (volume : Option PyFloat)
  | OhlcData (time : Int) (o h l c : Option PyFloat) (volume : Option PyFloat)
deriving DecidableEq, Repr

def AnyBasicData.time : AnyBasicData → Int
  | .WhitespaceData t => t
  | .SingleValueData t _ _ => t
  | .OhlcData t _ _ _ _ _ => t

def AnyBasicData.setTime : AnyBasicData → Int → AnyBasicData
  | .WhitespaceData _, t => .WhitespaceData t
  | .SingleValueData _ v vol, t => .SingleValueData t v vol
  | .OhlcData _ o h l c vol, t => .OhlcData t o h l c vol

def AnyBasicData.volumeOf : AnyBasicData → Option PyFloat
  | .WhitespaceData _ => none
  | .SingleValueData _ _ vol => vol
  | .OhlcData _ _ _ _ _ vol => vol

def AnyBasicData.setVolume : AnyBasicData → Option PyFloat → AnyBasicData
  | .WhitespaceData t, _ => .WhitespaceData t
  | .SingleValueData t v _, vol => .SingleValueData t v vol
  | .OhlcData t o h l c _, vol => .OhlcData t o h l c vol

def AnyBasicData.valueOf : AnyBasicData → Option PyFloat
  | .SingleValueData _ v _ => v
  | _ => none

def AnyBasicData.oOf : AnyBasicData → Option PyFloat
  | .OhlcData _ o _ _ _ _ => o
  | _ => none

def AnyBasicData.hOf : AnyBasicData → Option PyFloat
  | .OhlcData _ _ h _ _ _ => h
  | _ => none

def AnyBasicData.lOf : AnyBasicData → Option PyFloat
  | .OhlcData _ _ _ l _ _ => l
  | _ => none

def AnyBasicData.cOf : AnyBasicData → Option PyFloat
  | .OhlcData _ _ _ _ c _ => c
  | _ => none

def AnyBasicData.isWhitespace : AnyBasicData → Bool
  | .WhitespaceData _ => true
  | _ => false

/-- Modelled from the spec: data_type.cls.from_dict reshapes a record dict
into the shape of the store, defaulting absent keys to None
(series_dtypes.py is not part of src/). -/
def fromDict (k : SeriesType) (d : AnyBasicData) : AnyBasicData :=
  match k with
  | .WhitespaceData => .WhitespaceData d.time
  | .SingleValueData => .SingleValueData d.time d.valueOf d.volumeOf
  | .OHLC_Data => .OhlcData d.time d.oOf d.hOf d.lOf d.cOf d.volumeOf

/-- One dataframe row of the bar store. The time field is the dataframe
index value of the row; the numeric cells are None when the cell is
absent or NaN. Niche columns of the source (rth, ticks, vwap, colors) are
not carried: no claim reads them and no modelled operation writes them. -/
structure BarRow where
  time : Int
  o : Option PyFloat := none
  h : Option PyFloat := none
  l : Option PyFloat := none
  c : Option PyFloat := none
  val : Option PyFloat := none
  vol : Option PyFloat := none
deriving DecidableEq, Repr

def defaultRow : BarRow := { time := 0 }

/-- Payload of an InsufficientScheduleWarning raised by the external
pandas-market-calendars date_range, as decoded by its
parse_insufficient_schedule_warning helper: which side of the schedule is
short and the missing date range. -/
structure SchedErr where
  beginning : Bool
  strt : Int
  endT : Int
deriving DecidableEq, Repr

/-- External collaborators of the calendar cache. Every field models a
function of the pandas or pandas-market-calendars libraries, which are not
part of this repository; theorems that depend on their behaviour state the
needed facts as contract hypotheses. -/
structure CalEnv where
  /-- whether enable_market_calendars has run (mcal is not None). -/
  mcalLoaded : Bool
  /-- EXCHANGE_NAMES: lowercased mcal calendar name to canonical name. -/
  exchangeNames : String → Option String
  /-- mcal.get_calendar(name).name . -/
  calName : String → String
  /-- pd.date_range(t, freq = month/quarter/year start frequency, periods = 2)
  taken at its last element. -/
  anchoredNext : TF → Int → Int
  /-- pd.date_range(start, freq = month/quarter/year start frequency,
  periods = n). -/
  anchoredRange : TF → Int → Nat → List Int
  /-- pd.date_range(start, end, freq = anchored frequency) for the end-bounded
  form (never exercised by the claims). -/
  anchoredRangeEnd : TF → Int → Int → List Int
  /-- mcal.date_range(schedule, freq, closed left, no force_close, session set
  from include_ETH, start, end, periods). -/
  mcalDateRange : List Int → Int → Int → Option Int → Option Nat → Bool →
    Except SchedErr (List Int)
  /-- MarketCalendar.schedule(start, end) with market_times all: the freshly
  built schedule rows for that date window. -/
  schedule : String → Int → Int → List Int
  /-- MarketCalendar.open_at_time(schedule, t, include_close False,
  only_rth (not include_ETH)); none models the ValueError the source catches. -/
  openAtTime : List Int → Int → Bool → Option Bool
  /-- date_range_htf(freq, start, periods 2, closed left) composed with
  schedule_from_days, taken at its last listed open. -/
  htfOpen2 : String → TF → Int → Bool → Int
  /-- date_range_htf(freq, start, end, periods, closed left) composed with
  schedule_from_days: the open times of the listed sessions. -/
  htfRange : String → TF → Int → Option Int → Option Nat → Bool → List Int
  /-- mcal.mark_session(schedule, times, EXT_MAP, closed left). -/
  markSession : List Int → List Int → List Int

/-- Mutable state of the Calendars cache object: the set of loaded calendar
names (keys of mkt_cache and schedule_cache) and the cached schedule rows. -/
structure CalState where
  mkt_loaded : List String
  sched : String → List Int

def CalState.setSched (st : CalState) (c : String) (rows : List Int) : CalState :=
  { st with sched := fun x => if x = c then rows else st.sched x }

/-- str.lower as a structural map over the characters of the string. -/
def strLower (s : String) : String := String.mk (s.data.map Char.toLower)

/-- The hard-coded alternate exchange-name table installed by
enable_market_calendars. -/
def ALT_EXCHANGE_NAMES : String → Option String := fun ex =>
  if ex = "xnas" then some "NASDAQ"
  else if ex = "arca" then some "NYSE"
  else if ex = "forex" then some "24/5"
  else if ex = "alpaca" then some "24/7"
  else if ex = "polygon" then some "24/7"
  else if ex = "polygon.io" then some "24/7"
  else if ex = "coinbase" then some "24/7"
  else if ex = "kraken" then some "24/7"
  else if ex = "crypto" then some "24/7"
  else none

/-- A fixed-stride arithmetic sequence of timestamps, the shape produced by
pd.date_range for an unanchored frequency. -/
def arithSeq (a step : Int) (n : Nat) : List Int :=
  (List.range n).map (fun i : Nat => a + (i : Int) * step)

/-- Roll a timestamp forward to the first Sunday at the same time of day
(1970-01-04, day index 3, was a Sunday); pandas anchors the plain W
frequency to Sundays. -/
def rollSunday (t : Int) : Int := t + ((3 - t.fdiv 86400) % 7) * 86400

/-- pd.date_range(t, freq = mult W, periods = 2) taken at its last element:
roll t forward to the anchor weekday keeping the time of day, then step by
the full multiple of weeks. -/
def pdDateRangeW2 (t : Int) (mult : Nat) : Int :=
  rollSunday t + 7 * 86400 * (mult : Int)

namespace Calendars

/-- Calendars.request_calendar: resolve an exchange name to a calendar token
(alternate table first, then the primary table, case-insensitively; unknown
names warn and fall back to the 24/7 token), then build or extend the cached
schedule for a real calendar, padding the requested window by one week on
each side. Returns the token, whether a warning was logged, and the updated
cache. -/
def request_calendar (env : CalEnv) (st : CalState) (exchange : Option String)
    (start endT : Int) : String × Bool × CalState :=
  if ¬env.mcalLoaded then ("24/7", false, st) else
  match exchange with
  | none => ("24/7", false, st)
  | some ex₀ =>
    let ex := strLower ex₀
    let res : Option String × Bool :=
      match ALT_EXCHANGE_NAMES ex with
      | some a => (some (env.calName a), false)
      | none =>
        match env.exchangeNames ex with
        | some p => (some (env.calName p), false)
        | none => (none, true)
    match res with
    | (none, w) => ("24/7", w, st)
    | (some cname, w) =>
      if cname = "24/7" then ("24/7", w, st)
      else
        let start₁ := start - week
        let end₁ := endT + week
        if cname ∈ st.mkt_loaded then
          let sched := st.sched cname
          let sched₁ :=
            if start₁ < sched.headD 0 then
              env.schedule cname start₁ (sched.headD 0 - day) ++ sched
            else sched
          let sched₂ :=
            if sched₁.getLastD 0 < day * (end₁.fdiv day) then
              sched₁ ++ env.schedule cname (sched₁.getLastD 0 + day) end₁
            else sched₁
          (cname, w, st.setSched cname sched₂)
        else
          (cname, w,
            { mkt_loaded := cname :: st.mkt_loaded,
              sched := fun x =>
                if x = cname then env.schedule cname start₁ end₁ else st.sched x })

/-- The retry loop body of Calendars._date_range_ltf: call the external
date_range up to fuel times; on an InsufficientScheduleWarning extend the
cached schedule with the parsed missing range (padded by 16 weeks when the
deficiency is at the end) and retry; exhausting the fuel raises. -/
def dateRangeLtfGo (env : CalEnv) (calendar : String) (freq : Int) (start : Int)
    (endOpt : Option Int) (periods : Option Nat) (include_ETH : Option Bool) :
    Nat → CalState → Except String (List Int × CalState)
  | 0, _ =>
    .error "ValueError: Calendar.date_range could not form a proper schedule."
  | n + 1, st =>
    let schedule := st.sched calendar
    match env.mcalDateRange schedule freq start endOpt periods
        (include_ETH = some true) with
    | .ok ix => .ok (ix, st)
    | .error e =>
      let sEnd := if e.beginning then e.endT else e.endT + weeks16
      let extra := env.schedule calendar e.strt sEnd
      let sched₂ := if e.beginning then extra ++ schedule else schedule ++ extra
      dateRangeLtfGo env calendar freq start endOpt periods include_ETH n
        (st.setSched calendar sched₂)

/-- Calendars._date_range_ltf: derive a sub-day date range from the cached
schedule with at most 3 attempts (an unloaded calendar raises a KeyError at
the first schedule_cache access). -/
def dateRangeLtf (env : CalEnv) (st : CalState) (calendar : String) (freq : Int)
    (start : Int) (endOpt : Option Int) (periods : Option Nat)
    (include_ETH : Option Bool) : Except String (List Int × CalState) :=
  if calendar ∈ st.mkt_loaded then
    dateRangeLtfGo env calendar freq start endOpt periods include_ETH 3 st
  else .error "KeyError"

/-- pd.date_range for the 24/7 branch of Calendars.date_range, in the
periods-counted form used by the source: a fixed-stride sequence for
sub-week periods, the Sunday-anchored sequence for weeks, and the
period-start anchored sequences (external pandas arithmetic) for months,
quarters and years. -/
def pdDateRange247 (env : CalEnv) (start : Int) (t : TF) (n : Nat) : List Int :=
  match t.period with
  | .W => arithSeq (rollSunday start) (7 * 86400 * (t.mult : Int)) n
  | .M => env.anchoredRange t start n
  | .Q => env.anchoredRange t start n
  | .Y => env.anchoredRange t start n
  | _ => arithSeq start t.as_timedelta n

/-- The frequency argument of Calendars.date_range: the source dispatches on
whether it received a pandas Timedelta or a TF object. -/
inductive Freq where
  | td (d : Int)
  | tf (t : TF)

/-- Calendars.date_range: a DatetimeIndex of valid market times at the
desired frequency; a plain pandas range for the 24/7 token, the
schedule-backed sub-day range for a Timedelta frequency, and the
higher-timeframe session-open range otherwise. -/
def date_range (env : CalEnv) (st : CalState) (calendar : String) (freq : Freq)
    (start : Int) (endOpt : Option Int) (periods : Option Nat)
    (include_ETH : Option Bool) : Except String (List Int × CalState) :=
  if calendar = "24/7" then
    match freq with
    | .td _ => .error "AttributeError"
    | .tf t =>
      match periods, endOpt with
      | some n, none => .ok (pdDateRange247 env start t n, st)
      | none, some e => .ok (env.anchoredRangeEnd t start e, st)
      | _, _ => .error "ValueError"
  else if calendar ∈ st.mkt_loaded then
    match freq with
    | .td d => dateRangeLtf env st calendar d start endOpt periods include_ETH
    | .tf t =>
      .ok (env.htfRange calendar t start endOpt periods (include_ETH = some true), st)
  else .error "ValueError: calendar is not loaded into the calendar cache."

/-- Calendars.next_timestamp: the next bar open time strictly after the
given time. Weekly and month-or-coarser periods take an anchored pandas
step first; the 24/7 token returns that step directly; a real calendar
validates a sub-day step against the schedule, falling back to a
2-period sub-day date range, and uses the higher-timeframe session-open
range for day-or-coarser periods. -/
def next_timestamp (env : CalEnv) (st : CalState) (calendar : String)
    (current_time : Int) (freq : TF) (include_ETH : Option Bool) :
    Except String (Int × CalState) :=
  let next_time :=
    if freq.period = .W then pdDateRangeW2 current_time freq.mult
    else if freq.period = .M ∨ freq.period = .Q ∨ freq.period = .Y then
      env.anchoredNext freq current_time
    else current_time + freq.as_timedelta
  if calendar = "24/7" then .ok (next_time, st)
  else if freq.as_timedelta < day then
    if calendar ∈ st.mkt_loaded then
      match env.openAtTime (st.sched calendar) next_time (include_ETH = some true) with
      | some true => .ok (next_time, st)
      | _ =>
        match dateRangeLtf env st calendar freq.as_timedelta current_time none
            (some 2) include_ETH with
        | .error e => .error e
        | .ok (dt, st₁) =>
          match dt.getLast? with
          | some x => .ok (x, st₁)
          | none => .error "IndexError"
    else .error "KeyError"
  else
    if calendar ∈ st.mkt_loaded then
      .ok (env.htfOpen2 calendar freq current_time (include_ETH = some true), st)
    else .error "KeyError"

/-- Calendars.mark_session: the trading-hours session label of each time,
or none for the 24/7 token or when mcal is not loaded. -/
def mark_session (env : CalEnv) (st : CalState) (calendar : String)
    (times : List Int) : Option (List Int) :=
  if ¬env.mcalLoaded ∨ calendar = "24/7" then none
  else some (env.markSession (st.sched calendar) times)

end Calendars

/-- series.diff() over a list of timestamps with the leading NaN dropped:
the consecutive differences. -/
def pdDiff : List Int → List Int
  | a :: b :: t => (b - a) :: pdDiff (b :: t)
  | _ => []

/-- One step of the count-maximising scan behind value_counts().idxmax():
keep the running best value and its count, replacing it only when a value
with a strictly larger count appears. -/
def vcStep (l : List Int) (acc : Option (Int × Nat)) (x : Int) : Option (Int × Nat) :=
  match acc with
  | none => some (x, l.count x)
  | some (b, bc) => if bc < l.count x then some (x, l.count x) else some (b, bc)

/-- series.value_counts().idxmax(): the value with the highest occurrence
count. pandas leaves the tie order unspecified; the model scans the list in
order and keeps the first value whose count is strictly larger than the
best seen, so on inputs with a unique mode it agrees with pandas. An empty
list (which makes the source raise) is mapped to 0. -/
def valueCountsIdxmax (l : List Int) : Int :=
  ((l.foldl (vcStep l) none).map Prod.fst).getD 0

/-- determine_timedelta: the most frequent timedelta within the first 250
indices of the given series. -/
def determine_timedelta (times : List Int) : Int :=
  valueCountsIdxmax (pdDiff (times.take 250))

/-- Writing the fields of a data record into a dataframe row, dropping every
key that is not among the dataframe columns (the column set of a store is
its shape plus the optional volume column). -/
def mergeRow (dataType : SeriesType) (hasVol : Bool) (r : BarRow)
    (d : AnyBasicData) : BarRow :=
  match d with
  | .WhitespaceData _ => r
  | .SingleValueData _ v vol =>
    match dataType with
    | .SingleValueData => { r with val := v, vol := if hasVol then vol else r.vol }
    | .OHLC_Data => { r with vol := if hasVol then vol else r.vol }
    | .WhitespaceData => r
  | .OhlcData _ o h l c vol =>
    match dataType with
    | .OHLC_Data =>
      { r with o := o, h := h, l := l, c := c, vol := if hasVol then vol else r.vol }
    | .SingleValueData => { r with vol := if hasVol then vol else r.vol }
    | .WhitespaceData => r

/-- A fresh dataframe row holding exactly the fields of the record
(pd.DataFrame of the record dict, indexed by its time). -/
def rowOfD (d : AnyBasicData) : BarRow :=
  match d with
  | .WhitespaceData t => { time := t }
  | .SingleValueData t v vol => { time := t, val := v, vol := vol }
  | .OhlcData t o h l c vol => { time := t, o := o, h := h, l := l, c := c, vol := vol }

/-- update_dataframe: update the last entry in place when the record's time
equals the last index value, otherwise concatenate a new row (fields outside
the dataframe columns are dropped first in both branches). -/
def update_dataframe (dataType : SeriesType) (hasVol : Bool) (rows : List BarRow)
    (d : AnyBasicData) : List BarRow :=
  if (rows.getLastD defaultRow).time = d.time then
    rows.dropLast ++ [mergeRow dataType hasVol (rows.getLastD defaultRow) d]
  else
    rows ++ [mergeRow dataType hasVol { time := d.time } d]

/-- Drop duplicate timestamps keeping the first occurrence
(df[~df.time.duplicated(keep first)]). -/
def dedupKeepFirst : List Int → List BarRow → List BarRow
  | _, [] => []
  | seen, r :: rs =>
    if r.time ∈ seen then dedupKeepFirst seen rs
    else r :: dedupKeepFirst (r.time :: seen) rs

/-- The bar store state of TimeseriesDF after a successful load: the
timestamp-indexed rows, the fixed shape and volume-column flag, the inferred
timeframe both as a TF and as a raw timedelta, the calendar token, the
extended-hours trinary, and the predicted next bar open time. -/
structure TimeseriesDF where
  rows : List BarRow
  dataType : SeriesType
  hasVol : Bool
  tf : TF
  pd_tf : Int
  calendar : String
  ext : Option Bool
  next_bar_time : Int

namespace TimeseriesDF

/-- Open time of the current bar: the last index value. -/
def curr_bar_open_time (s : TimeseriesDF) : Int := (s.rows.getLastD defaultRow).time

/-- The current bar: the last dataframe row reshaped through from_dict into
the store's own data type (a column the dataframe lacks reads back as
None). -/
def current_bar (s : TimeseriesDF) : AnyBasicData :=
  let r := s.rows.getLastD defaultRow
  match s.dataType with
  | .OHLC_Data => .OhlcData r.time r.o r.h r.l r.c (if s.hasVol then r.vol else none)
  | .SingleValueData => .SingleValueData r.time r.val (if s.hasVol then r.vol else none)
  | .WhitespaceData => .WhitespaceData r.time

/-- TimeseriesDF.update_curr_bar: aggregate a tick update into the current
bar. The field-combination match mirrors the source case by case (the pair
of the last bar's shape and the update's shape); the volume is overwritten,
or summed when accumulate is set; the time is pinned to the current bar's
open time; the dataframe is updated through update_dataframe. Returns the
updated store and the record reshaped to the store's data type. -/
def update_curr_bar (s : TimeseriesDF) (data : AnyBasicData)
    (accumulate : Bool) : TimeseriesDF × AnyBasicData :=
  match data with
  | .WhitespaceData _ => (s, data)
  | _ =>
    let lb := s.current_bar
    let step : AnyBasicData × Option PyFloat :=
      match lb, data with
      | .SingleValueData t _ vol, .SingleValueData _ dv _ =>
        (.SingleValueData t dv vol, data.volumeOf)
      | .OhlcData t o hi lo _ vol, .SingleValueData _ dv _ =>
        (.OhlcData t o (some (PyFloat.pymax (hi.getD .ninf) (dv.getD .ninf)))
          (some (PyFloat.pymin (lo.getD .pinf) (dv.getD .pinf))) dv vol,
         data.volumeOf)
      | .OhlcData t o hi lo _ vol, .OhlcData _ _ dh dl dc dvol =>
        (.OhlcData t o (some (PyFloat.pymax (hi.getD .ninf) (dh.getD .ninf)))
          (some (PyFloat.pymin (lo.getD .pinf) (dl.getD .pinf))) dc vol,
         dvol)
      | .SingleValueData t _ vol, .OhlcData _ _ _ _ dc _ =>
        (.SingleValueData t dc vol, data.volumeOf)
      | .WhitespaceData _, _ =>
        (if accumulate then data.setVolume (some (.fin 0)) else data,
         if accumulate then some (.fin 0) else data.volumeOf)
      | _, _ => (lb, data.volumeOf)
    let lb₁ := step.1
    let lb₂ :=
      match lb₁.volumeOf, step.2 with
      | some lv, some dv =>
        lb₁.setVolume (some (if accumulate then lv.add dv else dv))
      | _, _ => lb₁
    let lb₃ := lb₂.setTime s.curr_bar_open_time
    ({ s with rows := update_dataframe s.dataType s.hasVol s.rows lb₃ },
     fromDict s.dataType lb₃)

/-- The shape coercion of TimeseriesDF.append_new_bar: a scalar appended to
an OHLC store synthesizes open = high = low = value and close = value; an
OHLC record appended to a value store keeps only the close. -/
def appendCoerce (dataType : SeriesType) (data : AnyBasicData) : AnyBasicData :=
  match dataType, data with
  | .OHLC_Data, .SingleValueData t v vol => .OhlcData t v v v v vol
  | .SingleValueData, .OhlcData t _ _ _ c vol => .SingleValueData t c vol
  | _, _ => data

/-- TimeseriesDF.append_new_bar: coerce the record to the store's shape,
concatenate it as a new row, and recompute the predicted next bar time
through the calendar cache. -/
def append_new_bar (env : CalEnv) (st : CalState) (s : TimeseriesDF)
    (data : AnyBasicData) : Except String (TimeseriesDF × CalState × AnyBasicData) :=
  let d := appendCoerce s.dataType data
  let inst := fromDict s.dataType d
  match Calendars.next_timestamp env st s.calendar d.time s.tf s.ext with
  | .error e => .error e
  | .ok (nbt, st₁) =>
    .ok ({ s with rows := s.rows ++ [rowOfD d], next_bar_time := nbt }, st₁, inst)

end TimeseriesDF

/-- _mark_ext for an input batch without an rth column: classify every row
through the calendar cache; when no session column is derivable the
extended-hours flag is none, when every row is a regular-hours session it is
false, otherwise true. -/
def markExt (env : CalEnv) (st : CalState) (calendar : String)
    (times : List Int) : Option Bool :=
  match Calendars.mark_session env st calendar times with
  | none => none
  | some rth => if rth.all (· = 0) then some false else some true

/-- Modelled from the spec: sd.SeriesType.data_type fixes the bar shape from
the column set present (series_dtypes.py is not part of src/). -/
def seriesTypeOf (hasOhlc hasValue : Bool) : SeriesType :=
  if hasOhlc then .OHLC_Data
  else if hasValue then .SingleValueData
  else .WhitespaceData

/-- An initial batch as it reaches TimeseriesDF.__init__ after
_standardize_names: rows with already-canonical field names, the column
flags of the dataframe, and the exchange hint. -/
structure RawBatch where
  rows : List BarRow
  hasOhlc : Bool
  hasValue : Bool
  hasVol : Bool
  exchange : Option String

/-- Result of TimeseriesDF.__init__: the degenerate whitespace, unknown
timeframe state for a batch of fewer than 2 records, or a loaded store. -/
inductive InitResult where
  | degenerate
  | loaded (md : TimeseriesDF)

/-- TimeseriesDF.__init__: reject batches of fewer than 2 records as the
degenerate state; otherwise infer the timedelta over the first 250 records,
derive the TF, resolve the calendar token for the exchange hint, drop
duplicate timestamps keeping the first, classify sessions, fix the data
type from the columns, and predict the next bar time from the last row. -/
def TimeseriesDF.init (env : CalEnv) (st : CalState) (raw : RawBatch) :
    Except String (InitResult × CalState) :=
  if raw.rows.length ≤ 1 then .ok (.degenerate, st)
  else
    let times := raw.rows.map (fun r => r.time)
    let pd_tf := determine_timedelta times
    let tf := TF.from_timedelta pd_tf
    let rc := Calendars.request_calendar env st raw.exchange (times.headD 0)
      (times.getLastD 0)
    let calendar := rc.1
    let st₁ := rc.2.2
    let rows := dedupKeepFirst [] raw.rows
    let ext := markExt env st₁ calendar (rows.map (fun r => r.time))
    let dataType := seriesTypeOf raw.hasOhlc raw.hasValue
    match Calendars.next_timestamp env st₁ calendar
        ((rows.getLastD defaultRow).time) tf ext with
    | .error e => .error e
    | .ok (nbt, st₂) =>
      .ok (.loaded
        { rows := rows, dataType := dataType, hasVol := raw.hasVol, tf := tf,
          pd_tf := pd_tf, calendar := calendar, ext := ext, next_bar_time := nbt },
        st₂)

/-- DatetimeIndex.union with a single new element, for a sorted unique
index: sorted insertion that drops an exact duplicate. -/
def dtUnion : List Int → Int → List Int
  | [], t => [t]
  | x :: xs, t =>
    if t < x then t :: x :: xs
    else if t = x then x :: xs
    else x :: dtUnion xs t

/-- The whitespace projector state: calendar context plus the projected
DatetimeIndex (the last 5 real bar times as overlap plus 500 future valid
opens, when fully built). -/
structure WhitespaceDF where
  ext : Option Bool
  tf : TF
  calendar : String
  dt_index : List Int

namespace WhitespaceDF

/-- BUFFER_LEN: number of bars projected ahead of the data series. -/
def BUFFER_LEN : Nat := 500

/-- OVERLAP_LEN: number of bars overlapped with the main series. -/
def OVERLAP_LEN : Nat := 5

/-- WhitespaceDF.__init__: ask the calendar cache for 505 valid opens
starting from the 5th-from-last real timestamp (an IndexError for a store
of fewer than 5 rows, exactly as the source's negative index would raise). -/
def build (env : CalEnv) (st : CalState) (base : TimeseriesDF) :
    Except String (WhitespaceDF × CalState) :=
  if OVERLAP_LEN ≤ base.rows.length then
    match Calendars.date_range env st base.calendar (.tf base.tf)
        (((base.rows.drop (base.rows.length - OVERLAP_LEN)).headD defaultRow).time)
        none (some (BUFFER_LEN + OVERLAP_LEN)) base.ext with
    | .error e => .error e
    | .ok (ix, st₁) =>
      .ok ({ ext := base.ext, tf := base.tf, calendar := base.calendar,
             dt_index := ix }, st₁)
  else .error "IndexError"

/-- The public window (the df property): the final 500 entries of the
projected index. -/
def window (w : WhitespaceDF) : List Int :=
  w.dt_index.drop (w.dt_index.length - BUFFER_LEN)

/-- WhitespaceDF.next_timestamp: the cached timestamp immediately after the
given time, raising when the time precedes the window start, and falling
back to the calendar cache past the end of the window. -/
def next_timestamp (env : CalEnv) (st : CalState) (w : WhitespaceDF)
    (curr_time : Int) : Except String (Int × CalState) :=
  match w.dt_index.head? with
  | none => .error "IndexError"
  | some h0 =>
    if curr_time < h0 then
      .error "ValueError: requested next time before the first index of the DF."
    else if curr_time < w.dt_index.getLastD 0 then
      match (w.dt_index.filter (fun x => curr_time < x)).head? with
      | some x => .ok (x, st)
      | none => .error "IndexError"
    else
      Calendars.next_timestamp env st w.calendar (w.dt_index.getLastD 0) w.tf w.ext

/-- WhitespaceDF.extend: append one more valid trading timestamp (computed
via the calendar cache) to the index. -/
def extend (env : CalEnv) (st : CalState) (w : WhitespaceDF) :
    Except String (WhitespaceDF × CalState × AnyBasicData) :=
  match Calendars.next_timestamp env st w.calendar (w.dt_index.getLastD 0) w.tf
      w.ext with
  | .error e => .error e
  | .ok (nbt, st₁) =>
    .ok ({ w with dt_index := dtUnion w.dt_index nbt }, st₁,
      .WhitespaceData nbt)

end WhitespaceDF

/-- BarState: the derived snapshot of the most recent bar. The dataclass
defaults are the degenerate value (index -1, epoch time, undefined numeric
fields). -/
structure BarState where
  index : Int := -1
  time : Int := 0
  timestamp : Int := 0
  time_close : Int := 0
  time_length : Int := 0
  o : Option PyFloat := none
  h : Option PyFloat := none
  l : Option PyFloat := none
  c : Option PyFloat := none
  val : Option PyFloat := none
  vol : Option PyFloat := none
  is_ext : Bool := false
  is_new : Bool := false
  is_ohlc : Bool := false
  is_single_value : Bool := false
deriving DecidableEq, Repr

/-- Timeseries._init_bar_state: build the snapshot from the freshly loaded
store (is_new true; a field reads NaN when its column is absent). -/
def initBarState (md : TimeseriesDF) : BarState :=
  let r := md.rows.getLastD defaultRow
  { index := (md.rows.length : Int) - 1,
    time := md.curr_bar_open_time,
    timestamp := md.curr_bar_open_time,
    time_close := md.curr_bar_open_time + md.pd_tf,
    time_length := md.pd_tf,
    o := if md.dataType = .OHLC_Data then r.o else none,
    h := if md.dataType = .OHLC_Data then r.h else none,
    l := if md.dataType = .OHLC_Data then r.l else none,
    c := if md.dataType = .OHLC_Data then r.c else none,
    val := if md.dataType = .SingleValueData then r.val else none,
    vol := if md.hasVol then r.vol else none,
    is_new := true,
    is_single_value := md.dataType = .SingleValueData,
    is_ohlc := md.dataType = .OHLC_Data }

/-- Timeseries._update_bar_state: refresh the snapshot in place after an
update (the shape flags stay constant; the timestamp records the update's
own time). -/
def updBarState (md : TimeseriesDF) (bs : BarState) (current_timestamp : Int)
    (is_new : Bool) : BarState :=
  let r := md.rows.getLastD defaultRow
  { bs with
    index := (md.rows.length : Int) - 1,
    time := md.curr_bar_open_time,
    timestamp := current_timestamp,
    time_close := md.curr_bar_open_time + md.pd_tf,
    time_length := md.pd_tf,
    o := if md.dataType = .OHLC_Data then r.o else none,
    h := if md.dataType = .OHLC_Data then r.h else none,
    l := if md.dataType = .OHLC_Data then r.l else none,
    c := if md.dataType = .OHLC_Data then r.c else none,
    val := if md.dataType = .SingleValueData then r.val else none,
    vol := if md.hasVol then r.vol else none,
    is_new := is_new }

/-- The data-relevant state of the Timeseries indicator: the primary store,
the whitespace projector, the bar-state snapshot, whether this instance is
the frame's primary data source, and the shared calendar cache it works
against. -/
structure Timeseries where
  main_data : Option TimeseriesDF
  whitespace_data : Option WhitespaceDF
  bar_state : Option BarState
  frame_primary : Bool
  cal_st : CalState

namespace Timeseries

/-- Timeseries.clear_data: drop the store and snapshot, and for the frame's
primary source also the whitespace projector. -/
def clear_data (s : Timeseries) : Timeseries :=
  { s with
    main_data := none,
    bar_state := none,
    whitespace_data := if s.frame_primary then none else s.whitespace_data }

/-- Timeseries.set_data: clear any previous data, build the store, clear
again and stop on a degenerate result (timeframe period E or whitespace
data type), otherwise install the store, initialize the snapshot, and for
the primary source build the whitespace projector. -/
def set_data (env : CalEnv) (s : Timeseries) (raw : RawBatch) :
    Except String Timeseries :=
  let s := if s.main_data.isSome then s.clear_data else s
  match TimeseriesDF.init env s.cal_st raw with
  | .error e => .error e
  | .ok (.degenerate, st₁) => .ok { s with main_data := none, cal_st := st₁ }
  | .ok (.loaded md, st₁) =>
    if md.tf.period = .E ∨ md.dataType = .WhitespaceData then
      .ok { s with main_data := none, cal_st := st₁ }
    else
      let s₁ :=
        { s with
          main_data := some md
          cal_st := st₁
          bar_state := some (initBarState md) }
      if s₁.frame_primary then
        match WhitespaceDF.build env st₁ md with
        | .error e => .error e
        | .ok (w, st₂) =>
          .ok { s₁ with whitespace_data := some w, cal_st := st₂ }
      else .ok s₁

/-- The whitespace-management block of Timeseries.update_data after a new
bar is appended: for the primary source, compare the update's time with the
projector's prediction from the previous bar time; on a mismatch rebuild
the projector wholesale, otherwise extend it by one entry. -/
def wsManage (env : CalEnv) (s : Timeseries) (md : TimeseriesDF)
    (duTime : Int) (curr_bar_time : Int) : Except String Timeseries :=
  match s.whitespace_data with
  | none => .ok s
  | some w =>
    if s.frame_primary then
      match WhitespaceDF.next_timestamp env s.cal_st w curr_bar_time with
      | .error e => .error e
      | .ok (expected_time, st₁) =>
        if duTime ≠ expected_time then
          match WhitespaceDF.build env st₁ md with
          | .error e => .error e
          | .ok (w₁, st₂) =>
            .ok { s with whitespace_data := some w₁, cal_st := st₂ }
        else
          match WhitespaceDF.extend env st₁ w with
          | .error e => .error e
          | .ok (w₁, st₂, _) =>
            .ok { s with whitespace_data := some w₁, cal_st := st₂ }
    else .ok s

/-- Timeseries.update_data: no-op without a store or for an update earlier
than the current bar's open; aggregate into the current bar when the
update's time is before the predicted next bar time; otherwise snap a
mistimed update back to the grid (time minus (time - predicted) mod the
stored timedelta), append a new bar, manage the whitespace window, and
refresh the snapshot. -/
def update_data (env : CalEnv) (s : Timeseries) (du : AnyBasicData)
    (accumulate : Bool) : Except String Timeseries :=
  match s.main_data with
  | none => .ok s
  | some md =>
    if du.time < md.curr_bar_open_time then .ok s
    else if du.time < md.next_bar_time then
      let r := md.update_curr_bar du accumulate
      .ok { s with
            main_data := some r.1,
            bar_state := s.bar_state.map (fun bs => updBarState r.1 bs du.time false) }
    else
      let du₁ :=
        if du.time ≠ md.next_bar_time then
          du.setTime (du.time - (du.time - md.next_bar_time) % md.pd_tf)
        else du
      let curr_bar_time := md.curr_bar_open_time
      match md.append_new_bar env s.cal_st du₁ with
      | .error e => .error e
      | .ok (md₁, st₁, _) =>
        match wsManage env { s with main_data := some md₁, cal_st := st₁ } md₁
            du₁.time curr_bar_time with
        | .error e => .error e
        | .ok s₂ =>
          .ok { s₂ with
                bar_state := s₂.bar_state.map
                  (fun bs => updBarState md₁ bs du₁.time true) }

/-- Python sequence indexing with support for in-range negative indices. -/
def pyIdx (l : List Int) (i : Int) : Int :=
  if i < 0 then l.getD (l.length - (-i).toNat) 0 else l.getD i.toNat 0

/-- Timeseries.bar_time: the timestamp at a bar index, supporting negative
indices from the end and, when a whitespace projector exists, indices up to
500 bars into the future; out-of-range indices clamp and warn. Returns the
value together with whether a warning was logged. Note: in the clamp above
the combined span the source returns whitespace_data.df.index[-1], and that
dataframe is indexed by a plain RangeIndex, so the value produced is the
integer position (window length - 1), not a timestamp. -/
def bar_time (s : Timeseries) (index : Int) : Int × Bool :=
  match s.main_data with
  | none => (0, true)
  | some md =>
    match s.whitespace_data with
    | some w =>
      let total_len : Int := (md.rows.length : Int) + (w.window.length : Int)
      if index > total_len - 1 then ((w.window.length : Int) - 1, true)
      else if index < -((md.rows.length : Int) - 1) then
        ((md.rows.headD defaultRow).time, true)
      else if index < (md.rows.length : Int) then
        (pyIdx (md.rows.map (fun r => r.time)) index, false)
      else
        (pyIdx w.window (index - (md.rows.length : Int) - 500), false)
    | none =>
      if index > (md.rows.length : Int) - 1 then
        ((md.rows.getLastD defaultRow).time, true)
      else if index < -((md.rows.length : Int) - 1) then
        ((md.rows.headD defaultRow).time, true)
      else (pyIdx (md.rows.map (fun r => r.time)) index, false)

/-- The bar_state output property: the live snapshot, or the default
BarState when no data has been loaded. -/
def bar_state_out (s : Timeseries) : BarState := s.bar_state.getD {}

end Timeseries

/-!  Helper lemmas and contract environments. -/

/-- Facts about the external pandas / pandas-market-calendars collaborators
that the theorems below rely on, stated at the interface boundary: anchored
pandas steps move strictly forward, counted ranges have the requested
length, every produced range is strictly increasing, and a schedule-backed
range starts no earlier than its requested start. -/
structure CalEnvContracts (env : CalEnv) : Prop where
  anchoredNext_gt : ∀ tf t, t < env.anchoredNext tf t
  anchoredRange_len : ∀ tf s n, (env.anchoredRange tf s n).length = n
  anchoredRange_sorted : ∀ tf s n, (env.anchoredRange tf s n).Pairwise (· < ·)
  mcalDR_len : ∀ sched f s e n eth ix,
    env.mcalDateRange sched f s e (some n) eth = .ok ix → ix.length = n
  mcalDR_sorted : ∀ sched f s e p eth ix,
    env.mcalDateRange sched f s e p eth = .ok ix → ix.Pairwise (· < ·)
  mcalDR_ge : ∀ sched f s e p eth ix,
    env.mcalDateRange sched f s e p eth = .ok ix → ∀ x ∈ ix, s ≤ x
  htfOpen2_gt : ∀ c tf t b, t < env.htfOpen2 c tf t b
  htfRange_len : ∀ c tf s e n b, (env.htfRange c tf s e (some n) b).length = n
  htfRange_sorted : ∀ c tf s e p b, (env.htfRange c tf s e p b).Pairwise (· < ·)

/-- A minimal deterministic instantiation of the external collaborators
(used to exercise the theorems on concrete inputs). -/
def arithEnv : CalEnv where
  mcalLoaded := true
  exchangeNames := fun _ => none
  calName := id
  anchoredNext := fun _ t => t + 1
  anchoredRange := fun _ s n => arithSeq s 1 n
  anchoredRangeEnd := fun _ s _ => [s]
  mcalDateRange := fun _ _ s _ p _ => .ok (arithSeq s 1 (p.getD 1))
  schedule := fun _ s e => [s, e]
  openAtTime := fun _ _ _ => some true
  htfOpen2 := fun _ _ t _ => t + 1
  htfRange := fun _ _ s _ p _ => arithSeq s 1 (p.getD 1)
  markSession := fun _ _ => []

/-- An empty calendar cache. -/
def calSt0 : CalState := { mkt_loaded := [], sched := fun _ => [] }

/-- Well-formedness of a whitespace projector state: a strictly increasing
projected index that is at least as long as the public window, with a valid
timeframe. -/
def WhitespaceDF.wf (w : WhitespaceDF) : Prop :=
  w.dt_index.Pairwise (· < ·) ∧ WhitespaceDF.BUFFER_LEN ≤ w.dt_index.length ∧
    0 < w.tf.mult ∧ w.tf.period ≠ .E

/-- A single-value row at the given time, for concrete instantiations. -/
def valRow (t : Int) : BarRow := { time := t, val := some (.fin 1) }

/-- A concrete loaded one-minute single-value store on the 24/7 token. -/
def wsBase : TimeseriesDF :=
  { rows := [valRow 0, valRow 60, valRow 120, valRow 180, valRow 240],
    dataType := .SingleValueData, hasVol := false, tf := ⟨1, .m⟩, pd_tf := 60,
    calendar := "24/7", ext := none, next_bar_time := 300 }

/-- The whitespace projector that construction from wsBase produces. -/
def wsW0 : WhitespaceDF :=
  { ext := none, tf := ⟨1, .m⟩, calendar := "24/7",
    dt_index := Calendars.pdDateRange247 arithEnv 0 ⟨1, .m⟩ 505 }

/-- The cached-schedule expansion the retry loop performs on one
insufficiency report: prepend exactly the parsed missing range when the
deficiency is at the beginning, append the parsed missing range padded by
16 weeks when it is at the end. -/
def expandSched (env : CalEnv) (sched : List Int) (cal : String)
    (e : SchedErr) : List Int :=
  if e.beginning then env.schedule cal e.strt e.endT ++ sched
  else sched ++ env.schedule cal e.strt (e.endT + weeks16)

/-- An environment whose external date_range reports a begin-side schedule
insufficiency for the range 100..200 until the cached schedule has at least
3 rows; the schedule builder records its requested endpoints. -/
def cexEnv : CalEnv :=
  { arithEnv with
    mcalDateRange := fun sched _ _ _ _ _ =>
      if 3 ≤ sched.length then .ok [1] else .error ⟨true, 100, 200⟩ }

/-- A cache holding the calendar X with a one-row schedule. -/
def cexSt : CalState := { mkt_loaded := ["X"], sched := fun _ => [300] }

/-- An environment whose external date_range reports an end-side
insufficiency for the range 400..500 until the schedule has 3 rows. -/
def wEnvOk : CalEnv :=
  { arithEnv with
    mcalDateRange := fun sched _ _ _ _ _ =>
      if 3 ≤ sched.length then .ok [5, 6] else .error ⟨false, 400, 500⟩ }

/-- An environment whose external date_range always reports an end-side
insufficiency. -/
def wEnvFail : CalEnv :=
  { arithEnv with mcalDateRange := fun _ _ _ _ _ _ => .error ⟨false, 400, 500⟩ }

/-- A fully built whitespace projector whose 500 projected timestamps start
at 1000000 with a one-minute stride. -/
def c9w : WhitespaceDF :=
  { ext := none, tf := ⟨1, .m⟩, calendar := "24/7",
    dt_index := arithSeq 1000000 60 500 }

/-- A primary-source Timeseries with the five-row store and the concrete
projector, for evaluating bar_time. -/
def c9ts : Timeseries :=
  { main_data := some wsBase, whitespace_data := some c9w, bar_state := none,
    frame_primary := true, cal_st := calSt0 }

theorem PyFloat.pymax_self (a : PyFloat) : PyFloat.pymax a a = a := by
  unfold PyFloat.pymax; split <;> rfl

theorem PyFloat.pymin_self (a : PyFloat) : PyFloat.pymin a a = a := by
  unfold PyFloat.pymin; split <;> rfl

theorem arithSeq_length (a step : Int) (n : Nat) : (arithSeq a step n).length = n := by
  simp [arithSeq]

theorem arithSeq_pairwise (a step : Int) (hstep : 0 < step) (n : Nat) :
    (arithSeq a step n).Pairwise (· < ·) := by
  rw [arithSeq, List.pairwise_map]
  refine (List.pairwise_lt_range n).imp ?_
  intro i j hij
  have h : (i : Int) < (j : Int) := by exact_mod_cast hij
  nlinarith

theorem arithSeq_mem_ge (a step : Int) (hstep : 0 ≤ step) (n : Nat) (x : Int)
    (hx : x ∈ arithSeq a step n) : a ≤ x := by
  simp only [arithSeq, List.mem_map, List.mem_range] at hx
  obtain ⟨i, _, rfl⟩ := hx
  have h : (0 : Int) ≤ (i : Int) * step := by positivity
  omega

/-- The minimal environment satisfies the interface contracts. -/
theorem arithEnv_contracts : CalEnvContracts arithEnv := by
  constructor
  · intro tf t; simp [arithEnv]
  · intro tf s n; simp [arithEnv, arithSeq_length]
  · intro tf s n; exact arithSeq_pairwise s 1 (by norm_num) n
  · intro sched f s e n eth ix h
    simp only [arithEnv, Except.ok.injEq] at h
    subst h; simp [arithSeq_length]
  · intro sched f s e p eth ix h
    simp only [arithEnv, Except.ok.injEq] at h
    subst h; exact arithSeq_pairwise s 1 (by norm_num) _
  · intro sched f s e p eth ix h x hx
    simp only [arithEnv, Except.ok.injEq] at h
    subst h
    exact arithSeq_mem_ge s 1 (by norm_num) _ x hx
  · intro c tf t b; simp [arithEnv]
  · intro c tf s e n b; simp [arithEnv, arithSeq_length]
  · intro c tf s e p b; exact arithSeq_pairwise s 1 (by norm_num) _

theorem TF.as_timedelta_pos (t : TF) (hm : 0 < t.mult) (hp : t.period ≠ .E) :
    0 < t.as_timedelta := by
  unfold TF.as_timedelta
  rcases t with ⟨m, p⟩
  simp only at hm hp
  have hm' : (0 : Int) < (m : Int) := by exact_mod_cast hm
  cases p
  · exact absurd rfl hp
  all_goals simp only []
  · exact hm'
  all_goals positivity

theorem rollSunday_ge (t : Int) : t ≤ rollSunday t := by
  unfold rollSunday
  have h7 : (0 : Int) < 7 := by norm_num
  have := Int.emod_nonneg (3 - t.fdiv 86400) (by norm_num : (7 : Int) ≠ 0)
  nlinarith

theorem pdDateRangeW2_gt (t : Int) (m : Nat) (hm : 0 < m) :
    t < pdDateRangeW2 t m := by
  unfold pdDateRangeW2
  have h1 := rollSunday_ge t
  have h2 : (0 : Int) < 7 * 86400 * (m : Int) := by positivity
  omega

/-- An ok result of the retry loop is an ok result of the external
date_range on some schedule. -/
theorem dateRangeLtfGo_ok (env : CalEnv) (cal : String) (f s : Int)
    (e0 : Option Int) (p : Option Nat) (eth : Option Bool) :
    ∀ (fuel : Nat) (st : CalState) (ix : List Int) (st₁ : CalState),
      Calendars.dateRangeLtfGo env cal f s e0 p eth fuel st = .ok (ix, st₁) →
      ∃ sched, env.mcalDateRange sched f s e0 p (eth = some true) = .ok ix := by
  intro fuel
  induction fuel with
  | zero => intro st ix st₁ h; simp [Calendars.dateRangeLtfGo] at h
  | succ n ih =>
    intro st ix st₁ h
    rw [Calendars.dateRangeLtfGo] at h
    rcases hdr : env.mcalDateRange (st.sched cal) f s e0 p (eth = some true) with e | v
    · rw [hdr] at h
      exact ih _ ix st₁ h
    · rw [hdr] at h
      simp only [Except.ok.injEq, Prod.mk.injEq] at h
      exact ⟨st.sched cal, by rw [hdr, h.1]⟩

theorem dateRangeLtf_ok (env : CalEnv) (st : CalState) (cal : String)
    (f s : Int) (e0 : Option Int) (p : Option Nat) (eth : Option Bool)
    (ix : List Int) (st₁ : CalState)
    (h : Calendars.dateRangeLtf env st cal f s e0 p eth = .ok (ix, st₁)) :
    ∃ sched, env.mcalDateRange sched f s e0 p (eth = some true) = .ok ix := by
  rw [Calendars.dateRangeLtf] at h
  split at h
  · exact dateRangeLtfGo_ok env cal f s e0 p eth 3 st ix st₁ h
  · simp at h

/-- Strict growth of Calendars.next_timestamp under the interface
contracts: every successful result is strictly after the input time. -/
theorem next_timestamp_gt (env : CalEnv) (hc : CalEnvContracts env)
    (st : CalState) (cal : String) (t : Int) (freq : TF) (eth : Option Bool)
    (n : Int) (st₁ : CalState) (hm : 0 < freq.mult) (hp : freq.period ≠ .E)
    (h : Calendars.next_timestamp env st cal t freq eth = .ok (n, st₁)) :
    t < n := by
  rw [Calendars.next_timestamp] at h
  set next_time :=
    (if freq.period = .W then pdDateRangeW2 t freq.mult
     else if freq.period = .M ∨ freq.period = .Q ∨ freq.period = .Y then
       env.anchoredNext freq t
     else t + freq.as_timedelta) with hnt
  have hgt : t < next_time := by
    rw [hnt]
    split
    · exact pdDateRangeW2_gt t freq.mult hm
    · split
      · exact hc.anchoredNext_gt freq t
      · have := TF.as_timedelta_pos freq hm hp
        omega
  split at h
  · simp only [Except.ok.injEq, Prod.mk.injEq] at h
    omega
  · split at h
    · split at h
      · split at h
        · simp only [Except.ok.injEq, Prod.mk.injEq] at h
          omega
        · rcases hdr : Calendars.dateRangeLtf env st cal freq.as_timedelta t
              none (some 2) eth with e | ⟨dt, st₂⟩
          · rw [hdr] at h; simp at h
          · rw [hdr] at h
            obtain ⟨sched, hok⟩ := dateRangeLtf_ok env st cal _ t none (some 2)
              eth dt st₂ hdr
            have hlen : dt.length = 2 := hc.mcalDR_len sched _ t none 2 _ dt hok
            have hsort := hc.mcalDR_sorted sched _ t none (some 2) _ dt hok
            have hge := hc.mcalDR_ge sched _ t none (some 2) _ dt hok
            match dt, hlen with
            | [a, b], _ =>
              simp only [List.getLast?_cons_cons, List.getLast?_singleton,
                Except.ok.injEq, Prod.mk.injEq] at h
              have hab : a < b := by
                simp only [List.pairwise_cons, List.mem_singleton] at hsort
                exact hsort.1 b rfl
              have hta : t ≤ a := hge a (by simp)
              omega
      · simp at h
    · split at h
      · simp only [Except.ok.injEq, Prod.mk.injEq] at h
        have := hc.htfOpen2_gt cal freq t (eth = some true)
        omega
      · simp at h

/-- Claim C4: for every calendar token, timeframe and time T, the calendar
cache's next_timestamp (whenever it returns) returns a value strictly
greater than T, hence composing it twice from T never returns a value less
than or equal to T; and for the 24/7 token with a fixed-duration (sub-week)
timeframe the result is exactly T plus the timeframe's duration. The
behaviour of the external market-calendar collaborators is constrained only
by their interface contracts. -/
theorem claim_C4_next_timestamp (env : CalEnv) (hc : CalEnvContracts env) :
    (∀ st cal t freq eth n st₁, 0 < freq.mult → freq.period ≠ .E →
      Calendars.next_timestamp env st cal t freq eth = .ok (n, st₁) → t < n) ∧
    (∀ st cal t freq eth n₁ st₁ n₂ st₂, 0 < freq.mult → freq.period ≠ .E →
      Calendars.next_timestamp env st cal t freq eth = .ok (n₁, st₁) →
      Calendars.next_timestamp env st₁ cal n₁ freq eth = .ok (n₂, st₂) →
      t < n₂) ∧
    (∀ st t freq eth,
      (freq.period = .s ∨ freq.period = .m ∨ freq.period = .h ∨ freq.period = .D) →
      Calendars.next_timestamp env st "24/7" t freq eth =
        .ok (t + freq.as_timedelta, st)) := by
  refine ⟨?_, ?_, ?_⟩
  · intro st cal t freq eth n st₁ hm hp h
    exact next_timestamp_gt env hc st cal t freq eth n st₁ hm hp h
  · intro st cal t freq eth n₁ st₁ n₂ st₂ hm hp h₁ h₂
    have g₁ := next_timestamp_gt env hc st cal t freq eth n₁ st₁ hm hp h₁
    have g₂ := next_timestamp_gt env hc st₁ cal n₁ freq eth n₂ st₂ hm hp h₂
    omega
  · intro st t freq eth hsub
    rw [Calendars.next_timestamp]
    rcases hsub with h | h | h | h <;> simp [h]

/-- Exercising claim C4 on a concrete input: five-minute timeframe on the
24/7 token from time 1000. -/
theorem claim_C4_next_timestamp_witness :
    CalEnvContracts arithEnv ∧
    Calendars.next_timestamp arithEnv calSt0 "24/7" 1000 ⟨5, .m⟩ none =
      .ok (1300, calSt0) := by
  refine ⟨arithEnv_contracts, ?_⟩
  have h := (claim_C4_next_timestamp arithEnv arithEnv_contracts).2.2 calSt0
    1000 ⟨5, .m⟩ none (Or.inr (Or.inl rfl))
  simpa using h

theorem pairwise_lt_mem_le_getLastD (l : List Int) :
    ∀ (d : Int), l.Pairwise (· < ·) → ∀ x ∈ l, x ≤ l.getLastD d := by
  induction l with
  | nil => intro d _ x hx; simp at hx
  | cons a t ih =>
    intro d hl x hx
    rw [List.getLastD_cons]
    rcases List.pairwise_cons.mp hl with ⟨ha, ht⟩
    rcases List.mem_cons.mp hx with hxa | hxt
    · subst hxa
      cases t with
      | nil => simp [List.getLastD]
      | cons b t' =>
        have hb := ih x ht b (by simp)
        have hab : x < b := ha b (by simp)
        omega
    · exact ih a ht x hxt

theorem dtUnion_eq_append (l : List Int) (t : Int) (h : ∀ x ∈ l, x < t) :
    dtUnion l t = l ++ [t] := by
  induction l with
  | nil => rfl
  | cons a xs ih =>
    have ha : a < t := h a (by simp)
    rw [dtUnion]
    rw [if_neg (by omega), if_neg (by omega)]
    rw [ih (fun x hx => h x (by simp [hx]))]
    simp

theorem window_length_of_le (w : WhitespaceDF)
    (h : WhitespaceDF.BUFFER_LEN ≤ w.dt_index.length) :
    w.window.length = 500 := by
  simp only [WhitespaceDF.window, List.length_drop]
  simp only [WhitespaceDF.BUFFER_LEN] at h ⊢
  omega

theorem window_pairwise (w : WhitespaceDF)
    (h : w.dt_index.Pairwise (· < ·)) : w.window.Pairwise (· < ·) := by
  exact h.sublist (List.drop_sublist _ _)

theorem date_range_tf_spec (env : CalEnv) (hc : CalEnvContracts env)
    (st : CalState) (cal : String) (t : TF) (start : Int) (n : Nat)
    (eth : Option Bool) (ix : List Int) (st₁ : CalState)
    (hm : 0 < t.mult) (hp : t.period ≠ .E)
    (h : Calendars.date_range env st cal (.tf t) start none (some n) eth =
      .ok (ix, st₁)) :
    ix.length = n ∧ ix.Pairwise (· < ·) := by
  rw [Calendars.date_range] at h
  split at h
  · simp only [Except.ok.injEq, Prod.mk.injEq] at h
    rcases h with ⟨h, -⟩
    subst h
    rcases t with ⟨mu, p⟩
    simp only at hm hp
    cases p
    case E => exact absurd rfl hp
    case W =>
      simp only [Calendars.pdDateRange247]
      refine ⟨arithSeq_length _ _ _, arithSeq_pairwise _ _ ?_ _⟩
      have hm' : (0 : Int) < (mu : Int) := by exact_mod_cast hm
      positivity
    case M =>
      simp only [Calendars.pdDateRange247]
      exact ⟨hc.anchoredRange_len _ _ _, hc.anchoredRange_sorted _ _ _⟩
    case Q =>
      simp only [Calendars.pdDateRange247]
      exact ⟨hc.anchoredRange_len _ _ _, hc.anchoredRange_sorted _ _ _⟩
    case Y =>
      simp only [Calendars.pdDateRange247]
      exact ⟨hc.anchoredRange_len _ _ _, hc.anchoredRange_sorted _ _ _⟩
    all_goals
      simp only [Calendars.pdDateRange247]
      refine ⟨arithSeq_length _ _ _, arithSeq_pairwise _ _ ?_ _⟩
      exact TF.as_timedelta_pos ⟨mu, _⟩ hm hp
  · split at h
    · simp only [Except.ok.injEq, Prod.mk.injEq] at h
      rcases h with ⟨h, -⟩
      subst h
      exact ⟨hc.htfRange_len _ _ _ _ _ _, hc.htfRange_sorted _ _ _ _ _ _⟩
    · simp at h

/-- Claim C3: after a full regeneration (construction) of the whitespace
projector, and after any extend call on a well-formed projector, the public
window contains exactly 500 timestamps and they are strictly increasing
(and the projector is again well formed). -/
theorem claim_C3_whitespace_window (env : CalEnv) (hc : CalEnvContracts env) :
    (∀ st base w st₁, 0 < base.tf.mult → base.tf.period ≠ .E →
      WhitespaceDF.build env st base = .ok (w, st₁) →
      w.window.length = 500 ∧ w.window.Pairwise (· < ·) ∧ w.wf) ∧
    (∀ st w w₁ st₁ d, w.wf →
      WhitespaceDF.extend env st w = .ok (w₁, st₁, d) →
      w₁.window.length = 500 ∧ w₁.window.Pairwise (· < ·) ∧ w₁.wf) := by
  constructor
  · intro st base w st₁ hm hp h
    rw [WhitespaceDF.build] at h
    split at h
    · rcases hdr : Calendars.date_range env st base.calendar (.tf base.tf)
          (((base.rows.drop (base.rows.length - WhitespaceDF.OVERLAP_LEN)).headD
            defaultRow).time) none
          (some (WhitespaceDF.BUFFER_LEN + WhitespaceDF.OVERLAP_LEN)) base.ext
        with e | ⟨ix, st₂⟩
      · rw [hdr] at h; simp at h
      · rw [hdr] at h
        simp only [Except.ok.injEq, Prod.mk.injEq] at h
        rcases h with ⟨hw, -⟩
        obtain ⟨hlen, hsort⟩ := date_range_tf_spec env hc st base.calendar
          base.tf _ _ base.ext ix st₂ hm hp hdr
        have hw1 : w.dt_index = ix := by rw [← hw]
        have hw2 : w.tf = base.tf := by rw [← hw]
        have hlen505 : w.dt_index.length = 505 := by
          rw [hw1, hlen]
          simp [WhitespaceDF.BUFFER_LEN, WhitespaceDF.OVERLAP_LEN]
        have hsort' : w.dt_index.Pairwise (· < ·) := by rw [hw1]; exact hsort
        have hbuf : WhitespaceDF.BUFFER_LEN ≤ w.dt_index.length := by
          rw [hlen505]; simp [WhitespaceDF.BUFFER_LEN]
        exact ⟨window_length_of_le w hbuf, window_pairwise w hsort',
          hsort', hbuf, by rw [hw2]; exact hm, by rw [hw2]; exact hp⟩
    · simp at h
  · intro st w w₁ st₁ d hwf h
    obtain ⟨hsort, hbuf, hm, hp⟩ := hwf
    rw [WhitespaceDF.extend] at h
    rcases hnt : Calendars.next_timestamp env st w.calendar
        (w.dt_index.getLastD 0) w.tf w.ext with e | ⟨nbt, st₂⟩
    · rw [hnt] at h; simp at h
    · rw [hnt] at h
      simp only [Except.ok.injEq, Prod.mk.injEq] at h
      rcases h with ⟨hw, -⟩
      have hgt : w.dt_index.getLastD 0 < nbt :=
        next_timestamp_gt env hc st w.calendar _ w.tf w.ext nbt st₂ hm hp hnt
      have hall : ∀ x ∈ w.dt_index, x < nbt := fun x hx =>
        lt_of_le_of_lt (pairwise_lt_mem_le_getLastD w.dt_index 0 hsort x hx) hgt
      have hix : w₁.dt_index = w.dt_index ++ [nbt] := by
        rw [← hw]; exact dtUnion_eq_append w.dt_index nbt hall
      have htf : w₁.tf = w.tf := by rw [← hw]
      have hsort₁ : w₁.dt_index.Pairwise (· < ·) := by
        rw [hix, List.pairwise_append]
        exact ⟨hsort, List.pairwise_singleton _ _, by simpa using hall⟩
      have hbuf₁ : WhitespaceDF.BUFFER_LEN ≤ w₁.dt_index.length := by
        rw [hix]; simp only [List.length_append, List.length_singleton]
        omega
      exact ⟨window_length_of_le w₁ hbuf₁, window_pairwise w₁ hsort₁,
        hsort₁, hbuf₁, by rw [htf]; exact hm, by rw [htf]; exact hp⟩

set_option maxRecDepth 4000 in
/-- Exercising claim C3 on a concrete store: construction then one extend,
both leaving a 500-entry strictly increasing window. -/
theorem claim_C3_whitespace_window_witness :
    ∃ w st₁ w₁ st₂ d,
      WhitespaceDF.build arithEnv calSt0 wsBase = .ok (w, st₁) ∧
      w.window.length = 500 ∧ w.window.Pairwise (· < ·) ∧
      WhitespaceDF.extend arithEnv calSt0 w = .ok (w₁, st₂, d) ∧
      w₁.window.length = 500 ∧ w₁.window.Pairwise (· < ·) := by
  have hb : WhitespaceDF.build arithEnv calSt0 wsBase = .ok (wsW0, calSt0) := rfl
  have h1 := (claim_C3_whitespace_window arithEnv arithEnv_contracts).1 calSt0
    wsBase wsW0 calSt0 (by norm_num [wsBase]) (by simp [wsBase]) hb
  have he : WhitespaceDF.extend arithEnv calSt0 wsW0 =
      .ok ({ wsW0 with dt_index := dtUnion wsW0.dt_index 30300 }, calSt0,
        .WhitespaceData 30300) := by rfl
  have h2 := (claim_C3_whitespace_window arithEnv arithEnv_contracts).2 calSt0
    wsW0 _ calSt0 (.WhitespaceData 30300) h1.2.2 he
  exact ⟨wsW0, calSt0, _, calSt0, _, hb, h1.1, h1.2.1, he, h2.1, h2.2.1⟩

theorem sched_setSched_self (st : CalState) (c : String) (r : List Int) :
    (st.setSched c r).sched c = r := by simp [CalState.setSched]

/-- Claim C5 counterexample: on a begin-side schedule insufficiency the
retry loop extends the cached schedule by exactly the parsed missing range
100..200 and nothing else; no endpoint of the expansion is moved by the
fixed 16-week increment the claim asserts for every insufficiency (the
increment is applied on the end side only). -/
theorem claim_C5_counterexample :
    Calendars.dateRangeLtf cexEnv cexSt "X" 60 0 none (some 2) none =
      .ok ([1], cexSt.setSched "X" ([100, 200] ++ [300])) ∧
    cexEnv.schedule "X" 100 200 = [100, 200] ∧
    (cexSt.setSched "X" ([100, 200] ++ [300])).sched "X" = [100, 200, 300] ∧
    ((100 : Int) - weeks16) ∉ ([100, 200, 300] : List Int) ∧
    ((200 : Int) + weeks16) ∉ ([100, 200, 300] : List Int) := by
  refine ⟨rfl, rfl, rfl, by decide, by decide⟩

/-- Claim C5 as amended: the sub-day date-range helper attempts at most 3
times; an insufficiency at the end of the cached schedule extends it by the
parsed missing range padded with the fixed 16-week increment, while an
insufficiency at the beginning extends it by exactly the parsed missing
range with no increment; and three failed attempts raise an error rather
than returning a partial result. -/
theorem claim_C5_amended :
    (∀ (env : CalEnv) (st : CalState) cal f s e0 p eth err ix,
      cal ∈ st.mkt_loaded →
      env.mcalDateRange (st.sched cal) f s e0 p (eth = some true) = .error err →
      env.mcalDateRange (expandSched env (st.sched cal) cal err) f s e0 p
        (eth = some true) = .ok ix →
      Calendars.dateRangeLtf env st cal f s e0 p eth =
        .ok (ix, st.setSched cal (expandSched env (st.sched cal) cal err))) ∧
    (∀ (env : CalEnv) (st : CalState) cal f s e0 p eth err₁ err₂ err₃,
      cal ∈ st.mkt_loaded →
      env.mcalDateRange (st.sched cal) f s e0 p (eth = some true) = .error err₁ →
      env.mcalDateRange (expandSched env (st.sched cal) cal err₁) f s e0 p
        (eth = some true) = .error err₂ →
      env.mcalDateRange
        (expandSched env (expandSched env (st.sched cal) cal err₁) cal err₂)
        f s e0 p (eth = some true) = .error err₃ →
      Calendars.dateRangeLtf env st cal f s e0 p eth =
        .error "ValueError: Calendar.date_range could not form a proper schedule.") := by
  constructor
  · intro env st cal f s e0 p eth err ix hmem h₁ h₂
    rw [Calendars.dateRangeLtf, if_pos hmem]
    rw [Calendars.dateRangeLtfGo, h₁]
    cases hb : err.beginning
    · simp only [expandSched, hb, Bool.false_eq_true, if_false] at h₂ ⊢
      rw [Calendars.dateRangeLtfGo, sched_setSched_self, h₂]
    · simp only [expandSched, hb, if_true] at h₂ ⊢
      rw [Calendars.dateRangeLtfGo, sched_setSched_self, h₂]
  · intro env st cal f s e0 p eth err₁ err₂ err₃ hmem h₁ h₂ h₃
    rw [Calendars.dateRangeLtf, if_pos hmem]
    rw [Calendars.dateRangeLtfGo, h₁]
    cases hb₁ : err₁.beginning
    all_goals
      simp only [expandSched, hb₁, Bool.false_eq_true, if_false, if_true] at h₂ h₃ ⊢
    all_goals
      rw [Calendars.dateRangeLtfGo, sched_setSched_self, h₂]
    all_goals
      cases hb₂ : err₂.beginning
    all_goals
      simp only [expandSched, hb₂, Bool.false_eq_true, if_false, if_true,
        sched_setSched_self] at h₃ ⊢
    all_goals
      rw [Calendars.dateRangeLtfGo, sched_setSched_self, h₃]
    all_goals rfl

/-- Exercising the amended claim C5 on concrete inputs: one end-side
insufficiency then success (the cache gains the parsed range padded by 16
weeks), and a permanently failing source (three misses then the error). -/
theorem claim_C5_amended_witness :
    Calendars.dateRangeLtf wEnvOk cexSt "X" 60 0 none (some 2) none =
      .ok ([5, 6], cexSt.setSched "X"
        (expandSched wEnvOk (cexSt.sched "X") "X" ⟨false, 400, 500⟩)) ∧
    Calendars.dateRangeLtf wEnvFail cexSt "X" 60 0 none (some 2) none =
      .error "ValueError: Calendar.date_range could not form a proper schedule." := by
  constructor
  · exact (claim_C5_amended).1 wEnvOk cexSt "X" 60 0 none (some 2) none
      ⟨false, 400, 500⟩ [5, 6] (by decide) rfl rfl
  · exact (claim_C5_amended).2 wEnvFail cexSt "X" 60 0 none (some 2) none
      ⟨false, 400, 500⟩ ⟨false, 400, 500⟩ ⟨false, 400, 500⟩ (by decide) rfl rfl rfl

theorem vcFold_spec (l : List Int) (rest : List Int) :
    ∀ (b : Int),
      ∃ b₁, rest.foldl (vcStep l) (some (b, l.count b)) = some (b₁, l.count b₁) ∧
        (b₁ = b ∨ b₁ ∈ rest) ∧ l.count b ≤ l.count b₁ ∧
        ∀ y ∈ rest, l.count y ≤ l.count b₁ := by
  induction rest with
  | nil => intro b; exact ⟨b, rfl, Or.inl rfl, le_refl _, by simp⟩
  | cons x t ih =>
    intro b
    rw [List.foldl_cons]
    by_cases hx : l.count b < l.count x
    · rw [show vcStep l (some (b, l.count b)) x = some (x, l.count x) by
        simp [vcStep, hx]]
      obtain ⟨b₁, heq, hmem, hle, hall⟩ := ih x
      refine ⟨b₁, heq, ?_, by omega, ?_⟩
      · rcases hmem with rfl | h
        · exact Or.inr (by simp)
        · exact Or.inr (by simp [h])
      · intro y hy
        rcases List.mem_cons.mp hy with rfl | hyt
        · exact hle
        · exact hall y hyt
    · rw [show vcStep l (some (b, l.count b)) x = some (b, l.count b) by
        simp [vcStep, hx]]
      obtain ⟨b₁, heq, hmem, hle, hall⟩ := ih b
      refine ⟨b₁, heq, ?_, hle, ?_⟩
      · rcases hmem with rfl | h
        · exact Or.inl rfl
        · exact Or.inr (by simp [h])
      · intro y hy
        rcases List.mem_cons.mp hy with rfl | hyt
        · omega
        · exact hall y hyt

/-- When a list has a strictly unique mode, the idxmax scan returns it. -/
theorem valueCountsIdxmax_eq_mode (l : List Int) (m : Int) (hm : m ∈ l)
    (hu : ∀ y ∈ l, y ≠ m → l.count y < l.count m) :
    valueCountsIdxmax l = m := by
  rcases hl : l with _ | ⟨a, t⟩
  · subst hl; simp at hm
  · subst hl
    rw [valueCountsIdxmax, List.foldl_cons]
    rw [show vcStep (a :: t) none a = some (a, (a :: t).count a) from rfl]
    obtain ⟨b₁, heq, hmem, hle, hall⟩ := vcFold_spec (a :: t) t a
    rw [heq]
    simp only [Option.map_some', Option.getD_some]
    by_contra hne
    have hb₁l : b₁ ∈ a :: t := by
      rcases hmem with rfl | h
      · simp
      · simp [h]
    have h1 : (a :: t).count b₁ < (a :: t).count m := hu b₁ hb₁l hne
    have h2 : (a :: t).count m ≤ (a :: t).count b₁ := by
      rcases List.mem_cons.mp hm with rfl | hmt
      · exact hle
      · exact hall m hmt
    omega

theorem pdDiff_length : ∀ l : List Int, (pdDiff l).length = l.length - 1
  | [] => rfl
  | [_] => rfl
  | a :: b :: t => by
    rw [pdDiff]
    have := pdDiff_length (b :: t)
    simp only [List.length_cons] at this ⊢
    omega

theorem pdDiff_take_subset :
    ∀ (n : Nat) (l : List Int), ∀ x ∈ pdDiff (l.take n), x ∈ pdDiff l
  | 0, l => by simp [pdDiff]
  | _ + 1, [] => by simp [pdDiff]
  | _ + 1, [a] => by simp [List.take, pdDiff]
  | n + 1, a :: b :: t => by
    cases n with
    | zero => intro x hx; simp [List.take, pdDiff] at hx
    | succ m =>
      intro x hx
      have ht : (a :: b :: t).take (m + 2) = a :: b :: t.take m := by
        simp [List.take]
      rw [ht, pdDiff] at hx
      rw [pdDiff]
      rcases List.mem_cons.mp hx with rfl | hx₁
      · exact List.mem_cons_self _ _
      · have ht₂ : (b :: t).take (m + 1) = b :: t.take m := by simp [List.take]
        have hx₂ : x ∈ pdDiff ((b :: t).take (m + 1)) := by rw [ht₂]; exact hx₁
        exact List.mem_cons_of_mem _ (pdDiff_take_subset (m + 1) (b :: t) x hx₂)

/-- Claim C6: the inferred timeframe is the statistical mode of the
consecutive timestamp differences over the first 250 records of the batch:
whenever those differences have a strictly unique mode, determine_timedelta
returns it; in particular a batch whose consecutive differences all equal
one regular stride infers exactly that stride; and a loaded store's raw
timedelta is exactly determine_timedelta of the batch timestamps. -/
theorem claim_C6_timeframe_inference :
    (∀ (times : List Int) (m : Int), 2 ≤ times.length →
      m ∈ pdDiff (times.take 250) →
      (∀ y ∈ pdDiff (times.take 250), y ≠ m →
        (pdDiff (times.take 250)).count y < (pdDiff (times.take 250)).count m) →
      determine_timedelta times = m) ∧
    (∀ (times : List Int) (d : Int), 2 ≤ times.length →
      (∀ x ∈ pdDiff times, x = d) →
      determine_timedelta times = d) ∧
    (∀ (env : CalEnv) (st : CalState) (raw : RawBatch) (md : TimeseriesDF)
        (st₁ : CalState),
      TimeseriesDF.init env st raw = .ok (.loaded md, st₁) →
      md.pd_tf = determine_timedelta (raw.rows.map (fun r => r.time))) := by
  refine ⟨?_, ?_, ?_⟩
  · intro times m _ hm hu
    exact valueCountsIdxmax_eq_mode _ m hm hu
  · intro times d hlen hall
    have hne : (pdDiff (times.take 250)).length = (times.take 250).length - 1 :=
      pdDiff_length _
    have htl : 2 ≤ (times.take 250).length := by
      rw [List.length_take]; exact le_min (by norm_num) hlen
    have hpos : 0 < (pdDiff (times.take 250)).length := by omega
    obtain ⟨x₀, hx₀⟩ := List.exists_mem_of_length_pos hpos
    have hx₀d : x₀ = d := hall x₀ (pdDiff_take_subset 250 times x₀ hx₀)
    subst hx₀d
    refine valueCountsIdxmax_eq_mode _ x₀ hx₀ ?_
    intro y hy hne'
    exact absurd (hall y (pdDiff_take_subset 250 times y hy)) hne'
  · intro env st raw md st₁ h
    rw [TimeseriesDF.init] at h
    split at h
    · simp at h
    · dsimp only [] at h
      split at h
      · simp at h
      · simp only [Except.ok.injEq, Prod.mk.injEq] at h
        rcases h with ⟨h, -⟩
        cases h
        rfl

/-- Exercising claim C6 on a concrete batch with a constant one-minute
stride. -/
theorem claim_C6_timeframe_inference_witness :
    2 ≤ ([0, 60, 120, 180] : List Int).length ∧
    determine_timedelta [0, 60, 120, 180] = 60 := by
  refine ⟨by decide, ?_⟩
  exact claim_C6_timeframe_inference.2.1 [0, 60, 120, 180] 60 (by decide)
    (by decide)

/-- Claim C7: an exchange name that resolves through neither the
alternate-name table nor the primary table (case-insensitively) yields the
24/7 token together with a logged warning, through a total code path that
raises nothing; and when the alternate table hits, the primary table is
never consulted (the result is invariant under replacing it). -/
theorem claim_C7_unknown_exchange :
    (∀ (env : CalEnv) (st : CalState) (ex : String) (start endT : Int),
      env.mcalLoaded = true →
      ALT_EXCHANGE_NAMES (strLower ex) = none →
      env.exchangeNames (strLower ex) = none →
      Calendars.request_calendar env st (some ex) start endT =
        ("24/7", true, st)) ∧
    (∀ (env : CalEnv) (st : CalState) (ex a : String) (start endT : Int),
      ALT_EXCHANGE_NAMES (strLower ex) = some a →
      ∀ tbl,
        Calendars.request_calendar { env with exchangeNames := tbl } st
          (some ex) start endT =
        Calendars.request_calendar env st (some ex) start endT) := by
  constructor
  · intro env st ex start endT hl halt hprim
    rw [Calendars.request_calendar]
    rw [if_neg (by simp [hl])]
    simp only [halt, hprim]
  · intro env st ex a start endT halt tbl
    by_cases hl : env.mcalLoaded
    · rw [Calendars.request_calendar, Calendars.request_calendar]
      rw [if_neg (by simp [hl]), if_neg (by simp [hl])]
      simp only [halt]
    · rw [Calendars.request_calendar, Calendars.request_calendar]
      rw [if_pos (by simp [hl]), if_pos (by simp [hl])]

/-- Exercising claim C7: an unknown exchange name falls back to 24/7 with a
warning, and the alternate entry xnas shadows any primary table. -/
theorem claim_C7_unknown_exchange_witness :
    Calendars.request_calendar arithEnv calSt0 (some "TotallyUnknown") 0 0 =
      ("24/7", true, calSt0) ∧
    Calendars.request_calendar
        { arithEnv with exchangeNames := fun _ => some "NYSE" } calSt0
        (some "XNAS") 0 0 =
      Calendars.request_calendar arithEnv calSt0 (some "XNAS") 0 0 := by
  constructor
  · exact claim_C7_unknown_exchange.1 arithEnv calSt0 "TotallyUnknown" 0 0 rfl
      (by decide) rfl
  · exact claim_C7_unknown_exchange.2 arithEnv calSt0 "XNAS" "NASDAQ" 0 0
      (by decide) (fun _ => some "NYSE")

theorem AnyBasicData.time_setTime (d : AnyBasicData) (t : Int) :
    (d.setTime t).time = t := by cases d <;> rfl

theorem mergeRow_time (dt : SeriesType) (hv : Bool) (r : BarRow)
    (d : AnyBasicData) : (mergeRow dt hv r d).time = r.time := by
  cases d <;> cases dt <;> rfl

theorem rowOfD_time (d : AnyBasicData) : (rowOfD d).time = d.time := by
  cases d <;> rfl

theorem TimeseriesDF.appendCoerce_time (dt : SeriesType) (d : AnyBasicData) :
    (TimeseriesDF.appendCoerce dt d).time = d.time := by
  cases dt <;> cases d <;> rfl

theorem TimeseriesDF.current_bar_time (md : TimeseriesDF) :
    md.current_bar.time = md.curr_bar_open_time := by
  rw [TimeseriesDF.current_bar]
  cases md.dataType <;> rfl

/-- Every non-whitespace tick aggregation rewrites the store as an
update_dataframe call on a record pinned to the current bar's open time. -/
theorem update_curr_bar_shape (md : TimeseriesDF) (d : AnyBasicData)
    (acc : Bool) (hws : d.isWhitespace = false) :
    ∃ lb : AnyBasicData, lb.time = md.curr_bar_open_time ∧
      (md.update_curr_bar d acc).1 =
        { md with rows := update_dataframe md.dataType md.hasVol md.rows lb } := by
  cases d with
  | WhitespaceData t => simp [AnyBasicData.isWhitespace] at hws
  | SingleValueData t v vol => exact ⟨_, AnyBasicData.time_setTime _ _, rfl⟩
  | OhlcData t o h l c vol => exact ⟨_, AnyBasicData.time_setTime _ _, rfl⟩

/-- Claim C1: for a loaded store, a non-whitespace update whose time lies in
the half-open window from the current bar's open time up to (excluding) the
predicted next-bar time keeps the stored row count unchanged, leaves every
row except the last untouched, and pins the last row's timestamp to the
current bar's open time. -/
theorem claim_C1_intrabar_update (env : CalEnv) (s : Timeseries)
    (md : TimeseriesDF) (d : AnyBasicData) (acc : Bool)
    (hs : s.main_data = some md) (hne : md.rows ≠ [])
    (hws : d.isWhitespace = false)
    (h₁ : md.curr_bar_open_time ≤ d.time) (h₂ : d.time < md.next_bar_time) :
    ∃ s₁ md₁, Timeseries.update_data env s d acc = .ok s₁ ∧
      s₁.main_data = some md₁ ∧
      md₁.rows.length = md.rows.length ∧
      md₁.rows.dropLast = md.rows.dropLast ∧
      (md₁.rows.getLastD defaultRow).time = md.curr_bar_open_time := by
  obtain ⟨lb, hlb, hmd⟩ := update_curr_bar_shape md d acc hws
  rw [Timeseries.update_data]
  rw [hs]
  simp only []
  rw [if_neg (not_lt.mpr h₁), if_pos h₂]
  refine ⟨_, (md.update_curr_bar d acc).1, rfl, rfl, ?_, ?_, ?_⟩ <;>
    rw [hmd] <;>
    simp only [] <;>
    rw [update_dataframe, if_pos (by rw [hlb]; rfl)]
  · rw [List.length_append, List.length_dropLast]
    have := List.length_pos.mpr hne
    simp only [List.length_singleton]
    omega
  · rw [List.dropLast_concat]
  · rw [List.getLastD_concat, mergeRow_time]
    rfl

/-- Exercising claim C1 on a concrete two-row single-value store with an
intra-bar tick. -/
theorem claim_C1_intrabar_update_witness :
    ∃ s₁ md₁,
      Timeseries.update_data arithEnv
        { main_data := some wsBase, whitespace_data := none, bar_state := none,
          frame_primary := false, cal_st := calSt0 }
        (.SingleValueData 250 (some (.fin 7)) none) false = .ok s₁ ∧
      s₁.main_data = some md₁ ∧
      md₁.rows.length = wsBase.rows.length ∧
      md₁.rows.dropLast = wsBase.rows.dropLast ∧
      (md₁.rows.getLastD defaultRow).time = wsBase.curr_bar_open_time := by
  exact claim_C1_intrabar_update arithEnv _ wsBase
    (.SingleValueData 250 (some (.fin 7)) none) false rfl (by decide)
    rfl (by decide) (by decide)

/-- The whitespace-management block never touches the main store. -/
theorem wsManage_main (env : CalEnv) (s : Timeseries) (md : TimeseriesDF)
    (t c : Int) (s₂ : Timeseries)
    (h : Timeseries.wsManage env s md t c = .ok s₂) :
    s₂.main_data = s.main_data := by
  rw [Timeseries.wsManage] at h
  split at h
  · simp only [Except.ok.injEq] at h; subst h; rfl
  · split at h
    · split at h
      · simp at h
      · split at h
        · split at h
          · simp at h
          · simp only [Except.ok.injEq] at h; subst h; rfl
        · split at h
          · simp at h
          · simp only [Except.ok.injEq] at h; subst h; rfl
    · simp only [Except.ok.injEq] at h; subst h; rfl

theorem append_new_bar_rows (env : CalEnv) (st : CalState) (md : TimeseriesDF)
    (d : AnyBasicData) (md₁ : TimeseriesDF) (st₁ : CalState)
    (inst : AnyBasicData)
    (h : md.append_new_bar env st d = .ok (md₁, st₁, inst)) :
    md₁.rows.length = md.rows.length + 1 ∧
    (md₁.rows.getLastD defaultRow).time = d.time := by
  rw [TimeseriesDF.append_new_bar] at h
  split at h
  · simp at h
  · simp only [Except.ok.injEq, Prod.mk.injEq] at h
    rcases h with ⟨h, -⟩
    subst h
    refine ⟨by simp, ?_⟩
    rw [List.getLastD_concat, rowOfD_time, TimeseriesDF.appendCoerce_time]

/-- The backward snap lands on the predicted grid modulo the duration. -/
theorem snap_congr (t n m : Int) : (t - (t - n) % m) % m = n % m := by
  have hdef := Int.emod_def (t - n) m
  have h1 : t - (t - n) % m = n + m * ((t - n) / m) := by linarith
  rw [h1, Int.add_mul_emod_self_left]

/-- Claim C2: for a loaded store with a sub-day timeframe, applying an
update whose time is at or after the predicted next-bar time appends
exactly one row, whose timestamp is the update time minus ((update time
minus predicted time) mod the timeframe duration), hence congruent to the
predicted boundary modulo the timeframe duration. -/
theorem claim_C2_append_snap (env : CalEnv) (s : Timeseries)
    (md : TimeseriesDF) (d : AnyBasicData) (acc : Bool) (s₁ : Timeseries)
    (hs : s.main_data = some md)
    (_hsub : md.tf.period = .s ∨ md.tf.period = .m ∨ md.tf.period = .h)
    (hdur : md.tf.as_timedelta = md.pd_tf)
    (hwf : md.curr_bar_open_time < md.next_bar_time)
    (ht : md.next_bar_time ≤ d.time)
    (h : Timeseries.update_data env s d acc = .ok s₁) :
    ∃ md₁, s₁.main_data = some md₁ ∧
      md₁.rows.length = md.rows.length + 1 ∧
      (md₁.rows.getLastD defaultRow).time =
        d.time - (d.time - md.next_bar_time) % md.tf.as_timedelta ∧
      (md₁.rows.getLastD defaultRow).time % md.tf.as_timedelta =
        md.next_bar_time % md.tf.as_timedelta := by
  rw [Timeseries.update_data, hs] at h
  dsimp only [] at h
  rw [if_neg (by omega), if_neg (not_lt.mpr ht)] at h
  rcases happ : md.append_new_bar env s.cal_st
      (if d.time ≠ md.next_bar_time then
        d.setTime (d.time - (d.time - md.next_bar_time) % md.pd_tf)
      else d) with e | ⟨md₁, st₁, inst⟩
  · rw [happ] at h; simp at h
  · rw [happ] at h
    dsimp only [] at h
    split at h
    · simp at h
    · rename_i s₂ heq
      injection h with h
      subst h
      obtain ⟨hlen, htime⟩ := append_new_bar_rows env s.cal_st md _ md₁ st₁
        inst happ
      have hdut :
          (if d.time ≠ md.next_bar_time then
            d.setTime (d.time - (d.time - md.next_bar_time) % md.pd_tf)
          else d).time = d.time - (d.time - md.next_bar_time) % md.pd_tf := by
        by_cases hcase : d.time = md.next_bar_time
        · rw [if_neg (by simpa using hcase), hcase]
          simp
        · rw [if_pos hcase, AnyBasicData.time_setTime]
      have hmain : s₂.main_data = some md₁ :=
        wsManage_main env _ md₁ _ _ s₂ heq
      refine ⟨md₁, hmain, hlen, ?_, ?_⟩
      · rw [htime, hdut, hdur]
      · rw [htime, hdut, hdur, snap_congr]

/-- Exercising claim C2 on a concrete two-row one-minute store with a
mistimed append at time 372, snapped back to 360. -/
theorem claim_C2_append_snap_witness :
    ∃ s₁ md₁,
      Timeseries.update_data arithEnv
        { main_data := some wsBase, whitespace_data := none, bar_state := none,
          frame_primary := false, cal_st := calSt0 }
        (.SingleValueData 372 (some (.fin 7)) none) false = .ok s₁ ∧
      s₁.main_data = some md₁ ∧
      md₁.rows.length = wsBase.rows.length + 1 ∧
      (md₁.rows.getLastD defaultRow).time = 360 ∧
      (md₁.rows.getLastD defaultRow).time % 60 = wsBase.next_bar_time % 60 := by
  obtain ⟨s₁, hs₁⟩ :
      ∃ s₁, Timeseries.update_data arithEnv
        { main_data := some wsBase, whitespace_data := none, bar_state := none,
          frame_primary := false, cal_st := calSt0 }
        (.SingleValueData 372 (some (.fin 7)) none) false = .ok s₁ := ⟨_, rfl⟩
  obtain ⟨md₁, h1, h2, h3, h4⟩ := claim_C2_append_snap arithEnv _ wsBase
    (.SingleValueData 372 (some (.fin 7)) none) false s₁ rfl
    (Or.inr (Or.inl rfl)) (by decide) (by decide) (by decide) hs₁
  refine ⟨s₁, md₁, hs₁, h1, h2, ?_, ?_⟩
  · rw [h3]; decide
  · have h60 : wsBase.tf.as_timedelta = 60 := by decide
    rw [h60] at h4
    exact h4

/-- Re-aggregating the current bar into itself leaves the rows unchanged
(for OHLC stores, provided the running high and low of the last row are
defined; a NaN cell would be re-read as minus or plus infinity by the
max/min guards). -/
theorem update_curr_bar_self (md : TimeseriesDF) (hne : md.rows ≠ [])
    (hdef : md.dataType = .OHLC_Data →
      (md.rows.getLastD defaultRow).h.isSome ∧
      (md.rows.getLastD defaultRow).l.isSome) :
    (md.update_curr_bar md.current_bar false).1.rows = md.rows := by
  obtain ⟨rows, dataType, hasVol, tf, pd_tf, calendar, ext, nbt⟩ := md
  simp only [] at hdef hne ⊢
  obtain ⟨l, r, rfl⟩ : ∃ l r, rows = l ++ [r] :=
    ⟨rows.dropLast, rows.getLast hne, (List.dropLast_append_getLast hne).symm⟩
  obtain ⟨rt, ro, rh, rl, rc, rval, rvol⟩ := r
  have hlast :
      (l ++ [(⟨rt, ro, rh, rl, rc, rval, rvol⟩ : BarRow)]).getLastD defaultRow =
        ⟨rt, ro, rh, rl, rc, rval, rvol⟩ := List.getLastD_concat _ _ _
  simp only [hlast] at hdef
  cases dataType
  case WhitespaceData =>
    simp [TimeseriesDF.update_curr_bar, TimeseriesDF.current_bar, hlast]
  case SingleValueData =>
    cases hv : hasVol
    · simp [TimeseriesDF.update_curr_bar, TimeseriesDF.current_bar,
        TimeseriesDF.curr_bar_open_time, update_dataframe, mergeRow, hlast,
        AnyBasicData.setTime, AnyBasicData.setVolume, AnyBasicData.volumeOf,
        AnyBasicData.time]
    · cases hrv : rvol
      · simp [TimeseriesDF.update_curr_bar, TimeseriesDF.current_bar,
          TimeseriesDF.curr_bar_open_time, update_dataframe, mergeRow, hlast,
          AnyBasicData.setTime, AnyBasicData.setVolume, AnyBasicData.volumeOf,
        AnyBasicData.time]
      · simp [TimeseriesDF.update_curr_bar, TimeseriesDF.current_bar,
          TimeseriesDF.curr_bar_open_time, update_dataframe, mergeRow, hlast,
          AnyBasicData.setTime, AnyBasicData.setVolume, AnyBasicData.volumeOf,
        AnyBasicData.time]
  case OHLC_Data =>
    obtain ⟨hh, hl⟩ := hdef rfl
    obtain ⟨xh, hxh⟩ := Option.isSome_iff_exists.mp hh
    obtain ⟨xl, hxl⟩ := Option.isSome_iff_exists.mp hl
    subst hxh hxl
    cases hv : hasVol
    · simp [TimeseriesDF.update_curr_bar, TimeseriesDF.current_bar,
        TimeseriesDF.curr_bar_open_time, update_dataframe, mergeRow, hlast,
        AnyBasicData.setTime, AnyBasicData.setVolume, AnyBasicData.volumeOf,
        AnyBasicData.time, PyFloat.pymax_self, PyFloat.pymin_self]
    · cases hrv : rvol
      · simp [TimeseriesDF.update_curr_bar, TimeseriesDF.current_bar,
          TimeseriesDF.curr_bar_open_time, update_dataframe, mergeRow, hlast,
          AnyBasicData.setTime, AnyBasicData.setVolume, AnyBasicData.volumeOf,
          AnyBasicData.time, PyFloat.pymax_self, PyFloat.pymin_self]
      · simp [TimeseriesDF.update_curr_bar, TimeseriesDF.current_bar,
          TimeseriesDF.curr_bar_open_time, update_dataframe, mergeRow, hlast,
          AnyBasicData.setTime, AnyBasicData.setVolume, AnyBasicData.volumeOf,
          AnyBasicData.time, PyFloat.pymax_self, PyFloat.pymin_self]

/-- Claim C8: re-applying the current bar (the last stored row serialized
through the store's own shape) as an update is idempotent: the mutate path
is taken, no row is appended, and every field value of the last row is
unchanged. -/
theorem claim_C8_idempotent (env : CalEnv) (s : Timeseries) (md : TimeseriesDF)
    (hs : s.main_data = some md) (hne : md.rows ≠ [])
    (hwf : md.curr_bar_open_time < md.next_bar_time)
    (hdef : md.dataType = .OHLC_Data →
      (md.rows.getLastD defaultRow).h.isSome ∧
      (md.rows.getLastD defaultRow).l.isSome) :
    ∃ s₁, Timeseries.update_data env s md.current_bar false = .ok s₁ ∧
      s₁.main_data.map TimeseriesDF.rows = some md.rows := by
  rw [Timeseries.update_data, hs]
  dsimp only []
  rw [TimeseriesDF.current_bar_time]
  rw [if_neg (lt_irrefl _), if_pos hwf]
  refine ⟨_, rfl, ?_⟩
  simp only [Option.map_some']
  rw [update_curr_bar_self md hne hdef]

/-- Exercising claim C8 on a concrete two-row single-value store. -/
theorem claim_C8_idempotent_witness :
    ∃ s₁,
      Timeseries.update_data arithEnv
        { main_data := some wsBase, whitespace_data := none, bar_state := none,
          frame_primary := false, cal_st := calSt0 }
        wsBase.current_bar false = .ok s₁ ∧
      s₁.main_data.map TimeseriesDF.rows = some wsBase.rows := by
  exact claim_C8_idempotent arithEnv _ wsBase rfl (by decide) (by decide)
    (by intro h; exact absurd h (by decide))

set_option maxRecDepth 4000 in
/-- Claim C9, evaluated on a concrete primary store (5 real rows, a 500
entry projected window starting at 1000000): negative indices, the lower
clamp and the future read-through behave as the claim states, but for an
index above the combined span the code returns
whitespace_data.df.index[-1], and that dataframe is indexed by a plain
RangeIndex, so the call yields the integer position 499 rather than the
last projected timestamp 1029940. -/
theorem claim_C9_bar_time_clamp_bug :
    Timeseries.bar_time c9ts 505 = (499, true) ∧
    c9w.window.getLastD 0 = 1029940 ∧
    (499 : Int) ∉ c9w.window ∧
    Timeseries.bar_time c9ts (-1) = (240, false) ∧
    Timeseries.bar_time c9ts (-10) = (0, true) ∧
    Timeseries.bar_time c9ts 5 = (1000000, false) := by
  refine ⟨by decide, by decide, by decide, by decide, by decide, by decide⟩

/-- Claim C10: loading a batch of fewer than 2 records leaves the store
holding no data at all: the main dataset reference is cleared, the
snapshot is cleared (so the accessor returns the default BarState), the
primary source's whitespace projector is cleared, and every subsequent
update_data call returns the state unchanged. -/
theorem claim_C10_degenerate_set_data (env : CalEnv) (s : Timeseries)
    (raw : RawBatch) (hraw : raw.rows.length < 2)
    (hwfs : s.main_data = none → s.bar_state = none ∧ s.whitespace_data = none) :
    ∃ s₁, Timeseries.set_data env s raw = .ok s₁ ∧
      s₁.main_data = none ∧ s₁.bar_state = none ∧
      (s.frame_primary = true → s₁.whitespace_data = none) ∧
      Timeseries.bar_state_out s₁ = {} ∧
      ∀ d acc, Timeseries.update_data env s₁ d acc = .ok s₁ := by
  have hinit : ∀ st, TimeseriesDF.init env st raw = .ok (.degenerate, st) := by
    intro st; rw [TimeseriesDF.init, if_pos (by omega)]
  rw [Timeseries.set_data]
  cases hms : s.main_data
  case none =>
    obtain ⟨hbs, hws⟩ := hwfs hms
    simp only [Option.isSome_none, Bool.false_eq_true, if_false, hinit]
    refine ⟨_, rfl, rfl, hbs, fun _ => hws, ?_, ?_⟩
    · rw [Timeseries.bar_state_out]
      dsimp only []
      rw [hbs]
      rfl
    · intro d acc
      rfl
  case some md =>
    simp only [Option.isSome_some, if_true, hinit, Timeseries.clear_data]
    refine ⟨_, rfl, rfl, rfl, ?_, ?_, ?_⟩
    · intro hp
      dsimp only []
      rw [hp]
      rfl
    · rfl
    · intro d acc
      rfl

/-- Exercising claim C10 on an empty batch fed to a fresh primary
Timeseries. -/
theorem claim_C10_degenerate_set_data_witness :
    ∃ s₁,
      Timeseries.set_data arithEnv
        { main_data := none, whitespace_data := none, bar_state := none,
          frame_primary := true, cal_st := calSt0 }
        { rows := [valRow 0], hasOhlc := false, hasValue := true,
          hasVol := false, exchange := none } = .ok s₁ ∧
      s₁.main_data = none ∧ s₁.bar_state = none ∧
      Timeseries.bar_state_out s₁ = {} := by
  obtain ⟨s₁, h1, h2, h3, h4, h5, h6⟩ := claim_C10_degenerate_set_data arithEnv
    { main_data := none, whitespace_data := none, bar_state := none,
      frame_primary := true, cal_st := calSt0 }
    { rows := [valRow 0], hasOhlc := false, hasValue := true, hasVol := false,
      exchange := none } (by decide) (fun _ => ⟨rfl, rfl⟩)
  exact ⟨s₁, h1, h2, h3, h5⟩

end Fracta
